import Mathlib

/-!
# Verification of the time-series alignment / forecast-accuracy core

A shallow embedding, in Lean 4, of the algorithmic core of the
`set_schedule_forecast_horizon` service:

* the tolerance-bounded nearest-timestamp joins (`pd.merge_asof` with
  `direction='nearest'`) used by `fetch_metrics_by_date`
  (`src/services/metrix_service.py`) and `metrix_all`
  (`src/utils/calc_error_metrix.py`);
* the metric computations of `calculate_metrics`
  (`src/services/metrix_service.py`), with an explicit model of the
  IEEE-754 special values (`+inf`, `-inf`, `NaN`) that the NumPy MAPE
  expression can produce, since the sanitization behaviour hinges on them;
* the horizon sizing of `get_seconds` / `create_forecast_config`
  (`src/services/set_forecast_service.py`);
* the discreteness estimator `calculate_time_interval`
  (`src/services/set_forecast_service.py`);
* the date-defaults builder `fetch_possible_date_for_metrix`
  (`src/services/metrix_service.py`);
* the dashboard view builder `data_fetcher`
  (`src/services/get_forecast_service.py`).

Timestamps and data values are modelled as rationals (seconds); database
reads are modelled as the lists of rows they return.  Python float
arithmetic on in-range magnitudes is modelled as exact rational
arithmetic, except where division by zero can occur (the MAPE pipeline),
where the `FP` type models the IEEE special-value propagation exactly.
-/

/-- A time-series row: (timestamp in seconds, value). -/
abbrev TSRow : Type := ℚ × ℚ

/-- Insert a row into a list sorted ascending by timestamp (stable). -/
def insertByTime (r : TSRow) : List TSRow → List TSRow
  | [] => [r]
  | x :: xs => if r.1 < x.1 then r :: x :: xs else x :: insertByTime r xs

/-- `df.sort_values(time_column)`: sort rows ascending by timestamp. -/
def sortByTime (l : List TSRow) : List TSRow :=
  l.foldr insertByTime []

/-- Absolute value on ℚ, written so that concrete instances evaluate by
kernel reduction. -/
def absQ (q : ℚ) : ℚ :=
  if q < 0 then -q else q

/-- Tolerance test of `pd.merge_asof`: with no tolerance every distance is
admissible, otherwise the absolute distance must be at most `tol`. -/
def withinTol (tol : Option ℚ) (d : ℚ) : Bool :=
  match tol with
  | none => true
  | some t => decide (d ≤ t)

/-- The matching core of `pd.merge_asof(..., direction='nearest',
tolerance=tol)`: for a left key `t`, the admissible right row minimizing the
absolute timestamp distance.  On equal distances the earlier right timestamp
wins (pandas resolves the backward/forward tie in favour of the backward,
i.e. earlier, point). -/
def nearestMatch {α : Type} (t : ℚ) (rows : List (ℚ × α)) (tol : Option ℚ) :
    Option (ℚ × α) :=
  rows.foldl
    (fun best r =>
      if withinTol tol (absQ (r.1 - t)) then
        match best with
        | none => some r
        | some b =>
            if absQ (r.1 - t) < absQ (b.1 - t) ∨ (absQ (r.1 - t) = absQ (b.1 - t) ∧ r.1 < b.1) then
              some r
            else some b
      else best)
    none

/-- `pd.merge_asof(left, right, on=time, direction='nearest', tolerance=tol)`
for two single-value-column frames, keeping the full matched right row so
that statements can speak about which points were bound together.  Output
row: (left time, left value, matched right row or `none`). -/
def mergeAsofP (left right : List TSRow) (tol : Option ℚ) :
    List (ℚ × ℚ × Option TSRow) :=
  left.map fun r => (r.1, r.2, nearestMatch r.1 right tol)

/-- `metrix_all` (src/utils/calc_error_metrix.py): sort the evaluation
(predicted) frame and the comparative (real) frame by time, then
`pd.merge_asof` them with `direction='nearest'` and **no tolerance**.
The per-row metric columns added afterwards are modelled by `maeColumn`
and `rmseColumn` below. -/
def metrix_all (dfEval dfComp : List TSRow) : List (ℚ × ℚ × Option TSRow) :=
  mergeAsofP (sortByTime dfEval) (sortByTime dfComp) none

/-- A pandas DataFrame with a time column plus named value columns; a cell
is `none` when it holds NaN (a missing nearest-match). -/
structure DFrame where
  cols : List String
  rows : List (ℚ × List (Option ℚ))
deriving DecidableEq

/-- `df.rename(columns={old: new})` on the value columns. -/
def renameCol (old new : String) (df : DFrame) : DFrame :=
  ⟨df.cols.map fun c => if c = old then new else c, df.rows⟩

/-- `pd.merge_asof(left, right, on=time, direction='nearest',
tolerance=tol)` on frames: every left row is kept; the matched right row's
cells are appended, or NaN cells when no right row is within tolerance. -/
def mergeAsofDF (left right : DFrame) (tol : Option ℚ) : DFrame :=
  ⟨left.cols ++ right.cols,
   left.rows.map fun r =>
     match nearestMatch r.1 right.rows tol with
     | some m => (r.1, r.2 ++ m.2)
     | none => (r.1, r.2 ++ right.cols.map fun _ => none)⟩

/-- `df.dropna()`: keep only the rows with no NaN cell. -/
def dropna (df : DFrame) : DFrame :=
  ⟨df.cols, df.rows.filter fun r => r.2.all Option.isSome⟩

/-- View a single-column series as a frame (sorted by time, as the code
sorts each fetched frame before merging). -/
def seriesToFrame (col : String) (data : List TSRow) : DFrame :=
  ⟨[col], (sortByTime data).map fun r => (r.1, [some r.2])⟩

/-- The cumulative merge loop of `fetch_metrics_by_date`
(src/services/metrix_service.py, lines 226-254): starting from the real
frame, for each method with a non-empty fetched prediction frame,
`df_merged = pd.merge_asof(df, df_merged.rename(columns={target: method}),
on=time, direction='nearest', tolerance=300s)`. -/
def fetchMetricsMergedFrame (targetCol : String) (real : List TSRow)
    (methods : List (String × List TSRow)) : DFrame :=
  methods.foldl
    (fun dfm mp =>
      if mp.2.isEmpty then dfm
      else
        mergeAsofDF (seriesToFrame targetCol mp.2)
          (renameCol targetCol mp.1 dfm) (some 300))
    (seriesToFrame targetCol real)

/-- Extract a named column of a frame (`df[c]`). -/
def getCol (df : DFrame) (c : String) : List (Option ℚ) :=
  match df.cols.findIdx? (fun x => x = c) with
  | some i => df.rows.map fun r => r.2.getD i none
  | none => []

/-- A Python/NumPy double restricted to what the metric pipeline can
produce: an (exact, in-range) finite value, `+inf`, `-inf`, or NaN.
Finite magnitudes are modelled exactly by rationals; only the special-value
propagation of the operations actually used is modelled. -/
inductive FP where
  | fin : ℚ → FP
  | pinf : FP
  | ninf : FP
  | nan : FP
deriving DecidableEq

/-- IEEE-754 addition on `FP` (used for NumPy sums). -/
def FP.add : FP → FP → FP
  | nan, _ => nan
  | _, nan => nan
  | pinf, ninf => nan
  | ninf, pinf => nan
  | pinf, _ => pinf
  | _, pinf => pinf
  | ninf, _ => ninf
  | _, ninf => ninf
  | fin a, fin b => fin (a + b)

/-- IEEE-754 division on `FP`.  Finite zero is treated as `+0` (the only
zeros that arise here are exact differences of equal rationals). -/
def FP.div : FP → FP → FP
  | nan, _ => nan
  | _, nan => nan
  | pinf, pinf => nan
  | pinf, ninf => nan
  | ninf, pinf => nan
  | ninf, ninf => nan
  | pinf, fin b => if b < 0 then ninf else pinf
  | ninf, fin b => if b < 0 then pinf else ninf
  | fin _, pinf => fin 0
  | fin _, ninf => fin 0
  | fin a, fin b =>
      if b = 0 then (if a = 0 then nan else if 0 < a then pinf else ninf)
      else fin (a / b)

/-- IEEE-754 absolute value on `FP` (`np.abs`). -/
def FP.abs : FP → FP
  | fin a => fin |a|
  | pinf => pinf
  | ninf => pinf
  | nan => nan

/-- Multiplication by a positive rational constant (the `* 100` of MAPE). -/
def FP.scalePos (c : ℚ) : FP → FP
  | fin a => fin (c * a)
  | pinf => pinf
  | ninf => ninf
  | nan => nan

/-- `sum` of a NumPy array (sequential model; NaN/±inf propagation does not
depend on the summation order for the term shapes arising here). -/
def FP.sum (l : List FP) : FP :=
  l.foldl FP.add (fin 0)

/-- `np.mean`: sum divided by length; NumPy yields NaN on an empty array,
which the model reproduces via `0 / 0`. -/
def FP.mean (l : List FP) : FP :=
  (FP.sum l).div (fin l.length)

/-- Is the value an ordinary finite number? -/
def FP.isFinite : FP → Bool
  | fin _ => true
  | _ => false

/-- Round half to even (Python `round` tie behaviour) to an integer. -/
def roundHalfEven (q : ℚ) : ℤ :=
  let f := ⌊q⌋
  let r := q - f
  if r < 1 / 2 then f
  else if 1 / 2 < r then f + 1
  else if f % 2 = 0 then f else f + 1

/-- Python `round(x, 2)` on `FP`: finite values are rounded to 2 decimal
places (ties to even); `±inf` and NaN pass through unchanged. -/
def FP.round2 : FP → FP
  | fin q => fin ((roundHalfEven (q * 100) : ℚ) / 100)
  | x => x

/-- `v` carries at most 2 decimal places (i.e. is the result of a
2-decimal rounding). -/
def FP.isRounded2 : FP → Bool
  | fin q => (q * 100).den == 1
  | _ => false

/-- `_safe_metric` of `calculate_metrics` (src/services/metrix_service.py
line 151): `0 if value is None or (isinstance(value, float) and
np.isnan(value)) else value`.  None never arises in the modelled calls. -/
def safeMetric (v : FP) : FP :=
  if v = FP.nan then FP.fin 0 else v

/-- Mean of a list of rationals (`0` on the empty list, never used there). -/
def meanQ (l : List ℚ) : ℚ :=
  l.foldl (· + ·) 0 / l.length

/-- `sklearn.metrics.mean_absolute_error` over (true, pred) rows. -/
def maeQ (rows : List (ℚ × ℚ)) : ℚ :=
  meanQ (rows.map fun r => |r.1 - r.2|)

/-- `sklearn.metrics.mean_squared_error` over (true, pred) rows. -/
def mseQ (rows : List (ℚ × ℚ)) : ℚ :=
  meanQ (rows.map fun r => (r.1 - r.2) ^ 2)

/-- `sklearn.metrics.r2_score` over (true, pred) rows, including sklearn's
zero-denominator handling: constant `y_true` gives `1.0` when the residual
sum is also zero and `0.0` otherwise. -/
def r2Q (rows : List (ℚ × ℚ)) : ℚ :=
  let num := (rows.map fun r => (r.1 - r.2) ^ 2).foldl (· + ·) 0
  let mt := meanQ (rows.map Prod.fst)
  let den := (rows.map fun r => (r.1 - mt) ^ 2).foldl (· + ·) 0
  if den = 0 then (if num = 0 then 1 else 0) else 1 - num / den

/-- One row's term of the NumPy MAPE expression:
`np.abs((y_true - y_pred) / y_true)` with IEEE division (NaN for `0/0`,
`±inf` for a nonzero numerator over zero). -/
def mapeTerm (r : ℚ × ℚ) : FP :=
  FP.abs ((FP.fin (r.1 - r.2)).div (FP.fin r.1))

/-- The NumPy MAPE expression of `calculate_metrics` (line 161):
`np.mean(np.abs((y_true - y_pred) / y_true)) * 100`, with full IEEE
special-value behaviour — a zero true value yields `±inf` or NaN terms. -/
def mapeRaw (rows : List (ℚ × ℚ)) : FP :=
  FP.scalePos 100 (FP.mean (rows.map mapeTerm))

/-- One method's reported metric set. -/
structure MetricSet where
  mae : FP
  rmse : FP
  r2 : FP
  mape : FP
deriving DecidableEq

/-- `calculate_metrics` (src/services/metrix_service.py lines 146-170) for
one method, over the merged (true, pred) rows: each metric is computed,
passed through `_safe_metric`, and rounded to 2 decimals.  sklearn raises
on empty input, hence `none` for the empty frame.  `np.sqrt(mse)` is
modelled by `Rat.sqrt` (the development relies only on its finiteness). -/
def calculate_metrics (rows : List (ℚ × ℚ)) : Option MetricSet :=
  if rows.isEmpty then none
  else
    some
      { mae := (safeMetric (FP.fin (maeQ rows))).round2
        rmse := (safeMetric (FP.fin (Rat.sqrt (mseQ rows)))).round2
        r2 := (safeMetric (FP.fin (r2Q rows))).round2
        mape := (safeMetric (mapeRaw rows)).round2 }

/-- `get_seconds` (src/services/set_forecast_service.py lines 102-111):
the fixed seconds-per-unit mapping; an unknown unit raises `ValueError`,
modelled as `none`. -/
def get_seconds (horizon_count : ℕ) (time_interval : String) : Option ℕ :=
  if time_interval = "minute" then some (horizon_count * 60)
  else if time_interval = "hour" then some (horizon_count * 3600)
  else if time_interval = "day" then some (horizon_count * 86400)
  else if time_interval = "month" then some (horizon_count * 2592000)
  else none

/-- The point-count computation of `create_forecast_config`
(src/services/set_forecast_service.py lines 224-230):
`count = int(seconds/discreteness)`, clamp below at 5, and if the result
exceeds 5000 replace it by `min(5000, int(count_data * 0.2))`.
For the in-range magnitudes involved, `int(seconds/discreteness)` equals
natural floor division and `int(count_data * 0.2)` equals `count_data / 5`
(the float `0.2` exceeds 1/5 by less than the relative rounding error the
truncation can absorb at these magnitudes). -/
def clampPointCount (seconds discreteness count_data : ℕ) : ℕ :=
  let c := seconds / discreteness
  let c := if c < 5 then 5 else c
  if 5000 < c then min 5000 (count_data / 5) else c

/-- The horizon-to-point-count pipeline of `create_forecast_config`
(src/services/set_forecast_service.py lines 209-230): tables with fewer
than 10 rows are rejected, an invalid unit raises (`none`), a zero
discreteness would raise `ZeroDivisionError` (`none`). -/
def forecastPointCount (horizon_count : ℕ) (time_interval : String)
    (discreteness count_data : ℕ) : Option ℕ :=
  if count_data < 10 then none
  else
    match get_seconds horizon_count time_interval with
    | none => none
    | some s =>
        if discreteness = 0 then none
        else some (clampPointCount s discreteness count_data)

/-- The Horizon Calculator as worded by the specification (section 4.5):
`raw_points = floor(horizon_count * unit_seconds / discreteness)`; minimum
5 points; if `raw_points > 5000`, clamp to
`min(5000, floor(0.2 * available_row_count))`. -/
def horizonPointsSpec (horizon_count unit_seconds discreteness
    available_row_count : ℕ) : ℕ :=
  let rawPoints := horizon_count * unit_seconds / discreteness
  if 5000 < rawPoints then min 5000 (available_row_count / 5)
  else if rawPoints < 5 then 5
  else rawPoints

/-- Insert into an ascending list of timestamps (stable). -/
def insertQ (x : ℚ) : List ℚ → List ℚ
  | [] => [x]
  | y :: ys => if x < y then x :: y :: ys else y :: insertQ x ys

/-- Sort a list of timestamps ascending. -/
def sortTimes (l : List ℚ) : List ℚ :=
  l.foldr insertQ []

/-- Consecutive differences of a list (`series.diff()` without the leading
NaT, i.e. `.iloc[1:]`). -/
def consecDiffs : List ℚ → List ℚ
  | [] => []
  | [_] => []
  | a :: b :: rest => (b - a) :: consecDiffs (b :: rest)

/-- `calculate_time_interval` (src/services/set_forecast_service.py lines
22-33): sort the sampled timestamps, average the consecutive differences
in seconds, round to the nearest integer (Python banker's rounding).  With
fewer than 2 points the mean is NaN and `round(NaN)` raises `ValueError`,
modelled as `none`. -/
def calculate_time_interval (times : List ℚ) : Option ℤ :=
  let diffs := consecDiffs (sortTimes times)
  if diffs.isEmpty then none else some (roundHalfEven (meanQ diffs))

/-- The response record built by `fetch_possible_date_for_metrix`
(src/services/metrix_service.py lines 102-107); timestamps in seconds. -/
structure DateDefaults where
  earliest_date : Option ℤ
  max_date : ℤ
  start_default_date : ℤ
  end_default_date : ℤ
deriving DecidableEq

/-- The earliest-prediction-date fold of `fetch_possible_date_for_metrix`
(lines 91-100): over every method's min date, keep the smallest present
one. -/
def earliestOf (l : List (Option ℤ)) : Option ℤ :=
  l.foldl
    (fun acc m =>
      match m with
      | none => acc
      | some d =>
          match acc with
          | none => some d
          | some e => if d < e then some d else some e)
    none

/-- `fetch_possible_date_for_metrix` (src/services/metrix_service.py lines
42-114) after connection resolution: fails when the configuration has no
prediction methods or the anchor table has no dates; otherwise builds the
defaults from the anchor's max date (`timedelta(days=1)` = 86400 s). -/
def fetch_possible_date_for_metrix (methods : List String)
    (anchorMinMax : Option (ℤ × ℤ)) (predictMins : List (Option ℤ)) :
    Except String DateDefaults :=
  if methods.isEmpty then .error "no prediction methods"
  else
    match anchorMinMax with
    | none => .error "no data in source table"
    | some mm =>
        .ok ⟨earliestOf predictMins, mm.2, mm.2 - 86400, mm.2⟩

/-- `last_real_date = pd.to_datetime(df[time]).max()` on a non-empty
anchor window. -/
def maxTime (l : List TSRow) : ℚ :=
  l.foldl (fun a r => max a r.1) ((l.head?.map Prod.fst).getD 0)

/-- Evaluation segment (`df_last_predict_data`, get_forecast_service.py
line 337): prediction rows with timestamp at or before the last known real
timestamp. -/
def evalSegment (pred : List TSRow) (lastKnown : ℚ) : List TSRow :=
  pred.filter fun r => r.1 ≤ lastKnown

/-- Display segment (`df_real_predict_data`, line 338): prediction rows
strictly after the last known real timestamp. -/
def displaySegment (pred : List TSRow) (lastKnown : ℚ) : List TSRow :=
  pred.filter fun r => lastKnown < r.1

/-- `method_metrix_table` (get_forecast_service.py lines 116-125): the
per-row metric table, i.e. `metrix_all` of the previous-prediction frame
(evaluation side) against the real-data frame (comparative side). -/
def method_metrix_table (dfRealData dfPrevPrediction : List TSRow) :
    List (ℚ × ℚ × Option TSRow) :=
  metrix_all dfPrevPrediction dfRealData

/-- The mutable per-request state threaded through the method loop of
`data_fetcher` (get_forecast_service.py lines 314-364).  The download
table is its base frame plus the optional extra `LSTM` column. -/
structure ViewState where
  actualPredictionXgboost : Option (List TSRow)
  actualPredictionLstm : Option (List TSRow)
  tableToDownload : List TSRow × Option (List ℚ)
  metricsXGBoost : List (ℚ × ℚ × Option TSRow)
  metricsLSTM : List (ℚ × ℚ × Option TSRow)
deriving DecidableEq

/-- One iteration of the method loop of `data_fetcher` (lines 320-364):
skip empty fetches; split the fetched prediction frame at the last real
date; reassign the download table; on `XGBoost`/`LSTM` store the display
segment prefixed with the last real row and recompute the metric table
over the evaluation segment. -/
def processMethod (dfRealData : List TSRow) (lastRealDate : ℚ)
    (lastRealLine : TSRow) (st : ViewState) (mp : String × List TSRow) :
    ViewState :=
  if mp.2.isEmpty then st
  else
    let dfLastPredict := evalSegment mp.2 lastRealDate
    let dfRealPredict := displaySegment mp.2 lastRealDate
    let st1 : ViewState := { st with tableToDownload := (dfRealPredict, none) }
    let dfPredictFull := lastRealLine :: dfRealPredict
    if mp.1 = "XGBoost" then
      { st1 with
        actualPredictionXgboost := some dfPredictFull
        tableToDownload := (dfPredictFull, none)
        metricsXGBoost := method_metrix_table dfRealData dfLastPredict }
    else if mp.1 = "LSTM" then
      { st1 with
        actualPredictionLstm := some dfPredictFull
        tableToDownload := (st1.tableToDownload.1, some (dfRealPredict.map Prod.snd))
        metricsLSTM := method_metrix_table dfRealData dfLastPredict }
    else st1

/-- The payload assembled by `data_fetcher` / `generane_responce`. -/
structure Payload where
  lastRealData : List TSRow
  lastKnowData : ℚ
  actualPredictionXgboost : Option (List TSRow)
  actualPredictionLstm : Option (List TSRow)
  tableToDownload : List TSRow × Option (List ℚ)
  metricsXGBoost : List (ℚ × ℚ × Option TSRow)
  metricsLSTM : List (ℚ × ℚ × Option TSRow)
deriving DecidableEq

/-- `data_fetcher` (src/services/get_forecast_service.py lines 230-377)
after configuration/connection resolution: the anchor window (already
sorted ascending by `get_table_data_df`) must be non-empty, then the
method loop runs and the payload is assembled. -/
def data_fetcher (dfLastRealData : List TSRow)
    (methodsPredict : List (String × List TSRow)) : Except String Payload :=
  if h : dfLastRealData = [] then .error "no data for analysis"
  else
    let lastRealDate := maxTime dfLastRealData
    let lastLine := dfLastRealData.getLast h
    let st :=
      methodsPredict.foldl (processMethod dfLastRealData lastRealDate lastLine)
        ⟨none, none, ([], none), [], []⟩
    .ok ⟨dfLastRealData, lastRealDate, st.actualPredictionXgboost,
         st.actualPredictionLstm, st.tableToDownload, st.metricsXGBoost,
         st.metricsLSTM⟩

/-- The `MAE` column added by `metrix_all` (calc_error_metrix.py line 63):
`np.abs(true - pred)` per merged row; NaN (no matched row) is `none`. -/
noncomputable def maeColumn (r : ℚ × ℚ × Option TSRow) : Option ℝ :=
  r.2.2.map fun m => |(m.2 : ℝ) - (r.2.1 : ℝ)|

/-- The `RMSE` column added by `metrix_all` (calc_error_metrix.py line 64):
`np.sqrt((true - pred)**2)` per merged row. -/
noncomputable def rmseColumn (r : ℚ × ℚ × Option TSRow) : Option ℝ :=
  r.2.2.map fun m => Real.sqrt (((m.2 : ℝ) - (r.2.1 : ℝ)) ^ 2)

/-! ## Horizon Calculator -/

theorem clampPointCount_eq_spec (hc us ds cd : ℕ) :
    clampPointCount (hc * us) ds cd = horizonPointsSpec hc us ds cd := by
  simp only [clampPointCount, horizonPointsSpec]
  split_ifs <;> omega

theorem get_seconds_mul (hc : ℕ) (unit : String) (us : ℕ)
    (h : get_seconds 1 unit = some us) :
    get_seconds hc unit = some (hc * us) := by
  unfold get_seconds at h ⊢
  split_ifs at h ⊢ <;> simp_all

/-- C4: for every positive horizon count, valid unit and positive
discreteness, the accepted configuration's point count is
`floor(horizon_count * unit_seconds / discreteness)` clamped below at 5,
and, when above 5000, replaced by `min(5000, floor(0.2 * row_count))`
(`horizonPointsSpec`, worded from the specification); the two worked
examples hold: (10, hour, 600) gives 60 unclamped and (1, minute, 600)
gives raw 0 clamped to 5. -/
theorem forecastPointCount_matches_spec :
    (∀ (hc : ℕ) (unit : String) (ds cd us : ℕ), 0 < hc → 0 < ds → 10 ≤ cd →
      get_seconds 1 unit = some us →
      forecastPointCount hc unit ds cd = some (horizonPointsSpec hc us ds cd)) ∧
    forecastPointCount 10 "hour" 600 100 = some 60 ∧
    forecastPointCount 1 "minute" 600 100 = some 5 := by
  refine ⟨fun hc unit ds cd us _ hds hcd hus => ?_, by decide, by decide⟩
  have h1 : ¬cd < 10 := by omega
  have h2 : ¬ds = 0 := by omega
  simp [forecastPointCount, get_seconds_mul hc unit us hus, h1, h2,
    clampPointCount_eq_spec]

theorem forecastPointCount_matches_spec_witness :
    (0 < 10 ∧ 0 < 600 ∧ 10 ≤ 100 ∧ get_seconds 1 "hour" = some 3600) ∧
    forecastPointCount 10 "hour" 600 100 =
      some (horizonPointsSpec 10 3600 600 100) :=
  ⟨⟨by decide, by decide, by decide, by decide⟩,
   forecastPointCount_matches_spec.1 10 "hour" 600 100 3600 (by decide)
     (by decide) (by decide) (by decide)⟩

/-- C5 counterexample: an accepted configuration (valid unit, positive
count and discreteness, 10 rows available) whose final point count is 2,
below the claimed minimum of 5: raw points 100*3600/60 = 6000 > 5000, so
the count becomes `min(5000, 10/5) = 2`. -/
theorem forecastPointCount_below_five :
    forecastPointCount 100 "hour" 60 10 = some 2 ∧ ¬ (5 : ℕ) ≤ 2 := by
  exact ⟨by decide, by decide⟩

/-- C5 (amended): every accepted configuration's final point count is at
most 5000 and at least 2; it is at least 5 whenever the available row
count is at least 25 (so `floor(0.2*rows) ≥ 5`), but when the raw point
count exceeds 5000 and the table has 10..24 rows the result
`floor(0.2*rows)` can be as small as 2.  The worked example holds:
raw 12000 with 10000 rows clamps to min(5000, 2000) = 2000. -/
theorem forecastPointCount_bounds :
    (∀ (hc : ℕ) (unit : String) (ds cd n : ℕ),
      forecastPointCount hc unit ds cd = some n →
      n ≤ 5000 ∧ 2 ≤ n ∧ (25 ≤ cd → 5 ≤ n)) ∧
    forecastPointCount 2 "month" 432 10000 = some 2000 := by
  constructor
  · intro hc unit ds cd n h
    unfold forecastPointCount at h
    cases hgs : get_seconds hc unit with
    | none =>
        simp only [hgs] at h
        split_ifs at h
    | some s =>
        simp only [hgs] at h
        split_ifs at h with h1 h2
        have hn : clampPointCount s ds cd = n := Option.some.inj h
        simp only [clampPointCount] at hn
        split_ifs at hn <;> omega
  · decide

theorem forecastPointCount_bounds_witness :
    forecastPointCount 2 "month" 432 10000 = some 2000 ∧
    2000 ≤ 5000 ∧ 2 ≤ 2000 ∧ (25 ≤ 10000 → 5 ≤ 2000) :=
  ⟨by decide,
   forecastPointCount_bounds.1 2 "month" 432 10000 2000 (by decide)⟩

/-! ## Date defaults -/

/-- C8: whenever `fetch_possible_date_for_metrix` succeeds, the returned
defaults satisfy `start_default_date = max_date - 1 day` (86400 s) exactly
and `end_default_date = max_date`. -/
theorem fetch_possible_date_defaults (methods : List String)
    (anchorMinMax : Option (ℤ × ℤ)) (predictMins : List (Option ℤ))
    (resp : DateDefaults)
    (h : fetch_possible_date_for_metrix methods anchorMinMax predictMins =
      .ok resp) :
    resp.start_default_date = resp.max_date - 86400 ∧
    resp.end_default_date = resp.max_date := by
  unfold fetch_possible_date_for_metrix at h
  split_ifs at h
  cases anchorMinMax with
  | none => exact absurd h (by simp)
  | some mm =>
      simp only [Except.ok.injEq] at h
      subst h
      exact ⟨rfl, rfl⟩

theorem fetch_possible_date_defaults_witness :
    (fetch_possible_date_for_metrix ["XGBoost"] (some (0, 100000)) [some 50] =
      .ok ⟨some 50, 100000, 13600, 100000⟩) ∧
    (13600 : ℤ) = 100000 - 86400 ∧ (100000 : ℤ) = 100000 :=
  ⟨by rfl,
   (fetch_possible_date_defaults ["XGBoost"] (some (0, 100000)) [some 50]
     ⟨some 50, 100000, 13600, 100000⟩ (by rfl)).1,
   rfl⟩

/-! ## Discreteness Estimator -/

theorem foldl_add_eq (l : List ℚ) : ∀ s : ℚ, l.foldl (· + ·) s = s + l.sum := by
  induction l with
  | nil => simp
  | cons a l ih => intro s; simp [List.sum_cons, ih]; ring

theorem consecDiffs_length : ∀ l : List ℚ, (consecDiffs l).length = l.length - 1
  | [] => rfl
  | [_] => rfl
  | a :: b :: rest => by
      simp only [consecDiffs, List.length_cons, consecDiffs_length (b :: rest)]
      omega

theorem consecDiffs_sum :
    ∀ (a : ℚ) (l : List ℚ), (consecDiffs (a :: l)).sum = l.getLastD a - a
  | _, [] => by simp [consecDiffs]
  | a, b :: l => by
      simp only [consecDiffs, List.sum_cons, consecDiffs_sum b l,
        List.getLastD_cons]
      ring

theorem insertQ_sorted (a : ℚ) (l : List ℚ)
    (h : List.Chain' (· < ·) (a :: l)) : insertQ a l = a :: l := by
  cases l with
  | nil => rfl
  | cons b bs =>
      have hab : a < b := (List.chain'_cons.mp h).1
      simp [insertQ, hab]

theorem sortTimes_of_sorted :
    ∀ l : List ℚ, List.Chain' (· < ·) l → sortTimes l = l := by
  intro l
  induction l with
  | nil => intro _; rfl
  | cons a l ih =>
      intro h
      have htl : sortTimes l = l := ih h.tail
      show insertQ a (sortTimes l) = a :: l
      rw [htl]
      exact insertQ_sorted a l h

/-- C7: on a strictly ascending sample window of at least 2 points,
`calculate_time_interval` returns the arithmetic mean of the consecutive
timestamp differences in seconds rounded (half to even) to the nearest
integer — equivalently `(last - first)/(n-1)` rounded; with fewer than 2
points it fails (`round(NaN)` raises, modelled as `none`); and the worked
example `[t0, t0+600, t0+1200] ↦ 600` holds for every base time `t0`. -/
theorem calculate_time_interval_spec :
    (∀ ts : List ℚ, List.Chain' (· < ·) ts → 2 ≤ ts.length →
      calculate_time_interval ts =
        some (roundHalfEven (meanQ (consecDiffs ts))) ∧
      meanQ (consecDiffs ts) =
        (ts.getLastD 0 - ts.headD 0) / ((ts.length : ℚ) - 1)) ∧
    (∀ ts : List ℚ, ts.length < 2 → calculate_time_interval ts = none) ∧
    (∀ t0 : ℚ, calculate_time_interval [t0, t0 + 600, t0 + 1200] = some 600) := by
  refine ⟨fun ts hs h2 => ⟨?_, ?_⟩, fun ts h2 => ?_, fun t0 => ?_⟩
  · unfold calculate_time_interval
    rw [sortTimes_of_sorted ts hs]
    have hne : ¬(consecDiffs ts).isEmpty = true := by
      rw [List.isEmpty_iff, ← List.length_eq_zero, consecDiffs_length]
      omega
    simp [hne]
  · cases ts with
    | nil => exact absurd h2 (by simp)
    | cons a l =>
        unfold meanQ
        rw [foldl_add_eq, consecDiffs_sum, consecDiffs_length]
        have hlen : ((a :: l).length - 1 : ℕ) = l.length := by simp
        rw [hlen]
        have : ((a :: l).length : ℚ) - 1 = (l.length : ℚ) := by
          push_cast [List.length_cons]; ring
        rw [this, List.getLastD_cons, List.headD_cons, zero_add]
  · cases ts with
    | nil => rfl
    | cons a l =>
        cases l with
        | nil => rfl
        | cons b bs => simp at h2; omega
  · have h1 : t0 < t0 + 600 := by linarith
    have hmid : t0 + 600 < t0 + 1200 := by linarith
    have hs : List.Chain' (· < ·) [t0, t0 + 600, t0 + 1200] := by
      simp [List.chain'_cons, h1, hmid]
    unfold calculate_time_interval
    rw [sortTimes_of_sorted _ hs]
    have hd : consecDiffs [t0, t0 + 600, t0 + 1200] =
        [t0 + 600 - t0, t0 + 1200 - (t0 + 600)] := rfl
    rw [hd]
    have hm : meanQ [t0 + 600 - t0, t0 + 1200 - (t0 + 600)] = 600 := by
      simp [meanQ]
      ring_nf
    simp only [List.isEmpty, hm]
    norm_num [roundHalfEven]

theorem calculate_time_interval_spec_witness :
    (List.Chain' (· < ·) [(0 : ℚ), 600, 1200] ∧
      2 ≤ ([(0 : ℚ), 600, 1200]).length) ∧
    calculate_time_interval [(0 : ℚ), 600, 1200] =
      some (roundHalfEven (meanQ (consecDiffs [(0 : ℚ), 600, 1200]))) :=
  ⟨⟨by norm_num [List.chain'_cons], by decide⟩,
   (calculate_time_interval_spec.1 [0, 600, 1200]
     (by norm_num [List.chain'_cons]) (by decide)).1⟩

/-! ## Temporal Aligner: tolerance bounds -/

theorem nearestMatch_foldl_within {α : Type} (t tol : ℚ) :
    ∀ (rows : List (ℚ × α)) (acc : Option (ℚ × α)),
      (∀ b, acc = some b → absQ (b.1 - t) ≤ tol) →
      ∀ m,
        List.foldl
          (fun best r =>
            if withinTol (some tol) (absQ (r.1 - t)) then
              match best with
              | none => some r
              | some b =>
                  if absQ (r.1 - t) < absQ (b.1 - t) ∨
                      (absQ (r.1 - t) = absQ (b.1 - t) ∧ r.1 < b.1) then
                    some r
                  else some b
            else best)
          acc rows = some m →
        absQ (m.1 - t) ≤ tol := by
  intro rows
  induction rows with
  | nil => intro acc hacc m h; exact hacc m h
  | cons r l ih =>
      intro acc hacc m h
      rw [List.foldl_cons] at h
      refine ih _ ?_ m h
      intro b hb
      by_cases hw : withinTol (some tol) (absQ (r.1 - t)) = true
      · have hrt : absQ (r.1 - t) ≤ tol := by
          simpa [withinTol] using hw
        rw [if_pos hw] at hb
        cases acc with
        | none => cases hb; exact hrt
        | some b0 =>
            have hb2 : (if absQ (r.1 - t) < absQ (b0.1 - t) ∨
                (absQ (r.1 - t) = absQ (b0.1 - t) ∧ r.1 < b0.1) then
                  some r else some b0) = some b := hb
            by_cases hc : absQ (r.1 - t) < absQ (b0.1 - t) ∨
                (absQ (r.1 - t) = absQ (b0.1 - t) ∧ r.1 < b0.1)
            · rw [if_pos hc] at hb2; cases hb2; exact hrt
            · rw [if_neg hc] at hb2; cases hb2; exact hacc _ rfl
      · rw [if_neg hw] at hb
        exact hacc b hb

theorem nearestMatch_within {α : Type} (t tol : ℚ) (rows : List (ℚ × α))
    (m : ℚ × α) (h : nearestMatch t rows (some tol) = some m) :
    absQ (m.1 - t) ≤ tol := by
  unfold nearestMatch at h
  exact nearestMatch_foldl_within t tol rows none (by intro b hb; cases hb) m h

theorem nearestMatch_none_of_far {α : Type} (t tol : ℚ)
    (rows : List (ℚ × α)) (hfar : ∀ r ∈ rows, ¬absQ (r.1 - t) ≤ tol) :
    nearestMatch t rows (some tol) = none := by
  unfold nearestMatch
  induction rows with
  | nil => rfl
  | cons r l ih =>
      rw [List.foldl_cons]
      have hw : withinTol (some tol) (absQ (r.1 - t)) = false := by
        simp [withinTol, hfar r (by simp)]
      rw [hw]
      simp only [Bool.false_eq_true, if_false]
      exact ih fun x hx => hfar x (by simp [hx])

/-- C2 (amended): in each tolerance-bounded nearest join performed by the
date-range scoring pipeline (`mergeAsofDF` with tolerance 300 s, as used by
`fetchMetricsMergedFrame`), every output row either binds the left point to
a matched right point at most 300 s away, or carries only NaN cells for the
right columns; and a left (candidate) frame entirely farther than 300 s
from every right row yields, after `dropna`, zero rows — no error raised.
The secondary `metrix_all` pairing is NOT tolerance-bounded (see the
counterexample `metrix_all_binds_far_points`). -/
theorem tolerance_join_bounded :
    (∀ (left right : DFrame) (tol : ℚ) (row : ℚ × List (Option ℚ)),
      row ∈ (mergeAsofDF left right (some tol)).rows →
      ∃ lrow ∈ left.rows, row.1 = lrow.1 ∧
        ((∃ m, nearestMatch lrow.1 right.rows (some tol) = some m ∧
            absQ (m.1 - lrow.1) ≤ tol ∧ row.2 = lrow.2 ++ m.2) ∨
         (nearestMatch lrow.1 right.rows (some tol) = none ∧
            row.2 = lrow.2 ++ right.cols.map fun _ => none))) ∧
    (∀ (cand real : DFrame), real.cols ≠ [] →
      (∀ tc ∈ cand.rows, ∀ tr ∈ real.rows, ¬absQ (tr.1 - tc.1) ≤ 300) →
      (dropna (mergeAsofDF cand real (some 300))).rows = []) := by
  constructor
  · intro left right tol row hrow
    simp only [mergeAsofDF, List.mem_map] at hrow
    obtain ⟨lrow, hl, hres⟩ := hrow
    refine ⟨lrow, hl, ?_⟩
    cases hm : nearestMatch lrow.1 right.rows (some tol) with
    | some m =>
        rw [hm] at hres
        exact ⟨by rw [← hres], Or.inl ⟨m, rfl,
          nearestMatch_within lrow.1 tol right.rows m hm, by rw [← hres]⟩⟩
    | none =>
        rw [hm] at hres
        exact ⟨by rw [← hres], Or.inr ⟨rfl, by rw [← hres]⟩⟩
  · intro cand real hcols hfar
    simp only [dropna, mergeAsofDF]
    rw [List.filter_eq_nil_iff]
    intro row hrow
    simp only [List.mem_map] at hrow
    obtain ⟨lrow, hl, hres⟩ := hrow
    rw [nearestMatch_none_of_far lrow.1 300 real.rows
      (fun r hr => hfar lrow hl r hr)] at hres
    rw [← hres]
    cases hc : real.cols with
    | nil => exact absurd hc hcols
    | cons c cs =>
        simp [List.all_eq_true]

theorem tolerance_join_bounded_witness :
    ((((0 : ℚ), [some (11 : ℚ), some (10 : ℚ)]) ∈
        (mergeAsofDF (seriesToFrame "v" [(0, 11)])
          (renameCol "v" "M" (seriesToFrame "v" [(0, 10)])) (some 300)).rows) ∧
      (∃ lrow ∈ (seriesToFrame "v" [((0 : ℚ), (11 : ℚ))]).rows,
        ((0 : ℚ), [some (11 : ℚ), some (10 : ℚ)]).1 = lrow.1 ∧
        ((∃ m, nearestMatch lrow.1
              (renameCol "v" "M" (seriesToFrame "v" [(0, 10)])).rows
              (some 300) = some m ∧
            absQ (m.1 - lrow.1) ≤ 300 ∧
            ((0 : ℚ), [some (11 : ℚ), some (10 : ℚ)]).2 = lrow.2 ++ m.2) ∨
         (nearestMatch lrow.1
              (renameCol "v" "M" (seriesToFrame "v" [(0, 10)])).rows
              (some 300) = none ∧
            ((0 : ℚ), [some (11 : ℚ), some (10 : ℚ)]).2 =
              lrow.2 ++ (renameCol "v" "M"
                (seriesToFrame "v" [(0, 10)])).cols.map fun _ => none)))) :=
  ⟨by norm_num [mergeAsofDF, seriesToFrame, renameCol, sortByTime, insertByTime,
      nearestMatch, withinTol, absQ],
   tolerance_join_bounded.1 (seriesToFrame "v" [(0, 11)])
     (renameCol "v" "M" (seriesToFrame "v" [(0, 10)])) 300
     ((0 : ℚ), [some (11 : ℚ), some (10 : ℚ)])
     (by norm_num [mergeAsofDF, seriesToFrame, renameCol, sortByTime,
        insertByTime, nearestMatch, withinTol, absQ])⟩

/-- C2 counterexample: `metrix_all` (the secondary evaluation/comparison
pairing) performs its nearest join with no tolerance, so it binds two
points 100000 seconds apart — the claim that no scoring join binds points
farther than 300 s apart is false for this pairing. -/
theorem metrix_all_binds_far_points :
    metrix_all [(0, 1)] [(100000, 2)] = [(0, 1, some (100000, 2))] ∧
    ¬absQ ((100000 : ℚ) - 0) ≤ 300 := by
  refine ⟨by decide, ?_⟩
  norm_num [absQ]

/-! ## The column swap in the date-range scoring frame -/

/-- C3: evaluating the cumulative scoring merge of `fetch_metrics_by_date`
at real data [(0s, 10), (600s, 20)] and a single method "XGBoost" with
predictions [(0s, 11), (600s, 21)] shows the columns swapped: the column
named by the configured target column holds the PREDICTED values 11, 21,
while the column named after the method holds the REAL values 10, 20 —
so `calculate_metrics` (which reads `y_true` from the target column) uses
the predictions as `y_true` and the real series as `y_pred`, contradicting
the claim (MAPE's denominator is the prediction, not the observed value). -/
theorem fetch_metrics_swaps_real_and_predicted :
    getCol (fetchMetricsMergedFrame "value" [(0, 10), (600, 20)]
      [("XGBoost", [(0, 11), (600, 21)])]) "value" =
        [some 11, some 21] ∧
    getCol (fetchMetricsMergedFrame "value" [(0, 10), (600, 20)]
      [("XGBoost", [(0, 11), (600, 21)])]) "XGBoost" =
        [some 10, some 20] := by
  have hne : ¬("value" : String) = "XGBoost" := by decide
  constructor <;>
    norm_num [fetchMetricsMergedFrame, mergeAsofDF, seriesToFrame, renameCol,
      sortByTime, insertByTime, nearestMatch, withinTol, absQ, getCol,
      List.cons_ne_nil, List.findIdx?, hne]
  all_goals decide

/-! ## Per-row metric table: RMSE column equals MAE column -/

/-- C10: for every merged row produced by `metrix_all`, the per-row RMSE
value `sqrt((true - pred)^2)` equals the per-row MAE value `|true - pred|`
(and both are NaN together when the row is unmatched), so the displayed
per-row table never distinguishes the two columns. -/
theorem metrix_all_rmse_eq_mae (dfEval dfComp : List TSRow) :
    ∀ r ∈ metrix_all dfEval dfComp, rmseColumn r = maeColumn r := by
  intro r _
  unfold rmseColumn maeColumn
  cases r.2.2 with
  | none => rfl
  | some m => simp [Real.sqrt_sq_eq_abs]

theorem metrix_all_rmse_eq_mae_witness :
    (((0 : ℚ), (1 : ℚ), some ((0 : ℚ), (2 : ℚ))) ∈
        metrix_all [(0, 1)] [(0, 2)]) ∧
    rmseColumn ((0 : ℚ), (1 : ℚ), some ((0 : ℚ), (2 : ℚ))) =
      maeColumn ((0 : ℚ), (1 : ℚ), some ((0 : ℚ), (2 : ℚ))) :=
  ⟨by decide,
   metrix_all_rmse_eq_mae [(0, 1)] [(0, 2)] _ (by decide)⟩

/-! ## Forecast View Builder -/

theorem foldl_max_sorted :
    ∀ (l : List TSRow) (a : TSRow),
      List.Chain' (fun x y : TSRow => x.1 ≤ y.1) (a :: l) →
      List.foldl (fun acc r => max acc r.1) a.1 l =
        ((a :: l).getLast (List.cons_ne_nil a l)).1 := by
  intro l
  induction l with
  | nil => intro a _; rfl
  | cons b bs ih =>
      intro a h
      have hab : a.1 ≤ b.1 := (List.chain'_cons.mp h).1
      have htl : List.Chain' (fun x y : TSRow => x.1 ≤ y.1) (b :: bs) :=
        (List.chain'_cons.mp h).2
      rw [List.foldl_cons, max_eq_right hab, ih b htl,
        List.getLast_cons (List.cons_ne_nil b bs)]

theorem maxTime_eq_getLast (l : List TSRow) (h : l ≠ [])
    (hs : List.Chain' (fun x y : TSRow => x.1 ≤ y.1) l) :
    (l.getLast h).1 = maxTime l := by
  cases l with
  | nil => exact absurd rfl h
  | cons a l' =>
      unfold maxTime
      simp only [List.head?_cons, Option.map_some', Option.getD_some,
        List.foldl_cons, max_self]
      exact (foldl_max_sorted l' a hs).symm

/-- C6: with `last_known_time = maxTime anchor` (the maximum anchor
timestamp), the view builder's evaluation segment contains exactly the
prediction points with timestamp at most `last_known_time`, the display
segment exactly those strictly after it, the last anchor row is the
max-timestamp point (the anchor is sorted ascending), and the displayed
forecast stored for a method is the display segment prefixed with that
single last real row. -/
theorem forecast_split_exact :
    ∀ (anchor pred : List TSRow) (h : anchor ≠ []),
      List.Chain' (fun x y : TSRow => x.1 ≤ y.1) anchor →
      ((∀ r : TSRow, r ∈ evalSegment pred (maxTime anchor) ↔
          r ∈ pred ∧ r.1 ≤ maxTime anchor) ∧
       (∀ r : TSRow, r ∈ displaySegment pred (maxTime anchor) ↔
          r ∈ pred ∧ maxTime anchor < r.1) ∧
       (anchor.getLast h).1 = maxTime anchor ∧
       (pred ≠ [] →
         (processMethod anchor (maxTime anchor) (anchor.getLast h)
             ⟨none, none, ([], none), [], []⟩
             ("XGBoost", pred)).actualPredictionXgboost =
           some (anchor.getLast h :: displaySegment pred (maxTime anchor)))) := by
  intro anchor pred h hs
  refine ⟨fun r => ?_, fun r => ?_, maxTime_eq_getLast anchor h hs, fun hp => ?_⟩
  · simp [evalSegment, List.mem_filter]
  · simp [displaySegment, List.mem_filter]
  · have hpe : pred.isEmpty = false := by
      cases pred with
      | nil => exact absurd rfl hp
      | cons a l => rfl
    simp [processMethod, hpe]

theorem forecast_split_exact_witness :
    (([((0 : ℚ), (1 : ℚ)), ((600 : ℚ), (2 : ℚ))] : List TSRow) ≠ [] ∧
      List.Chain' (fun x y : TSRow => x.1 ≤ y.1)
        [((0 : ℚ), (1 : ℚ)), ((600 : ℚ), (2 : ℚ))] ∧
      ([((300 : ℚ), (5 : ℚ)), ((900 : ℚ), (6 : ℚ))] : List TSRow) ≠ []) ∧
    (processMethod [((0 : ℚ), (1 : ℚ)), ((600 : ℚ), (2 : ℚ))]
        (maxTime [((0 : ℚ), (1 : ℚ)), ((600 : ℚ), (2 : ℚ))])
        (([((0 : ℚ), (1 : ℚ)), ((600 : ℚ), (2 : ℚ))] : List TSRow).getLast
          (List.cons_ne_nil _ _))
        ⟨none, none, ([], none), [], []⟩
        ("XGBoost",
          [((300 : ℚ), (5 : ℚ)), ((900 : ℚ), (6 : ℚ))])).actualPredictionXgboost =
      some (([((0 : ℚ), (1 : ℚ)), ((600 : ℚ), (2 : ℚ))] : List TSRow).getLast
          (List.cons_ne_nil _ _) ::
        displaySegment [((300 : ℚ), (5 : ℚ)), ((900 : ℚ), (6 : ℚ))]
          (maxTime [((0 : ℚ), (1 : ℚ)), ((600 : ℚ), (2 : ℚ))])) :=
  ⟨⟨by decide, by norm_num [List.chain'_cons], by decide⟩,
   (forecast_split_exact [((0 : ℚ), (1 : ℚ)), ((600 : ℚ), (2 : ℚ))]
       [((300 : ℚ), (5 : ℚ)), ((900 : ℚ), (6 : ℚ))] (List.cons_ne_nil _ _)
       (by norm_num [List.chain'_cons])).2.2.2 (by decide)⟩

/-- C9: a configuration with zero method bindings and a non-empty anchor
window yields, without any error, a payload whose anchor section is the
full real-data window (and its last-known-date marker), while every
method-keyed section — per-method forecasts, the download table, and both
metric tables — is empty. -/
theorem zero_methods_payload :
    ∀ (anchor : List TSRow), anchor ≠ [] →
      data_fetcher anchor [] =
        .ok ⟨anchor, maxTime anchor, none, none, ([], none), [], []⟩ := by
  intro anchor h
  simp [data_fetcher, h]

theorem zero_methods_payload_witness :
    ([((0 : ℚ), (1 : ℚ))] : List TSRow) ≠ [] ∧
    data_fetcher [((0 : ℚ), (1 : ℚ))] [] =
      .ok ⟨[((0 : ℚ), (1 : ℚ))], maxTime [((0 : ℚ), (1 : ℚ))], none, none,
        ([], none), [], []⟩ :=
  ⟨by decide, zero_methods_payload [((0 : ℚ), (1 : ℚ))] (by decide)⟩

/-! ## Metrics Engine: sanitization and MAPE special values -/

theorem FP.add_nan (x : FP) : FP.add x FP.nan = FP.nan := by
  cases x <;> rfl

theorem FP.nan_add (x : FP) : FP.add FP.nan x = FP.nan := by
  cases x <;> rfl

theorem FP.foldl_add_nan : ∀ l : List FP, l.foldl FP.add FP.nan = FP.nan := by
  intro l
  induction l with
  | nil => rfl
  | cons a l ih => rw [List.foldl_cons, FP.nan_add]; exact ih

theorem FP.foldl_add_mem_nan :
    ∀ l : List FP, FP.nan ∈ l → ∀ acc, l.foldl FP.add acc = FP.nan := by
  intro l
  induction l with
  | nil => intro hn; cases hn
  | cons a l ih =>
      intro hn acc
      rw [List.foldl_cons]
      rcases List.mem_cons.mp hn with h | h
      · rw [← h, FP.add_nan]
        exact FP.foldl_add_nan l
      · exact ih h _

theorem FP.foldl_add_fin :
    ∀ l : List FP, (∀ x ∈ l, ∃ q, x = FP.fin q) →
      ∀ s : ℚ, ∃ q, l.foldl FP.add (FP.fin s) = FP.fin q := by
  intro l
  induction l with
  | nil => intro _ s; exact ⟨s, rfl⟩
  | cons a l ih =>
      intro hl s
      obtain ⟨qa, ha⟩ := hl a (by simp)
      subst ha
      rw [List.foldl_cons]
      exact ih (fun x hx => hl x (by simp [hx])) (s + qa)

theorem FP.foldl_add_from_pinf :
    ∀ l : List FP, (∀ x ∈ l, x ≠ FP.nan ∧ x ≠ FP.ninf) →
      l.foldl FP.add FP.pinf = FP.pinf := by
  intro l
  induction l with
  | nil => intro _; rfl
  | cons a l ih =>
      intro hl
      rw [List.foldl_cons]
      obtain ⟨hn, hni⟩ := hl a (by simp)
      have ha : FP.add FP.pinf a = FP.pinf := by
        cases a with
        | fin q => rfl
        | pinf => rfl
        | ninf => exact absurd rfl hni
        | nan => exact absurd rfl hn
      rw [ha]
      exact ih fun x hx => hl x (by simp [hx])

theorem FP.foldl_add_mem_pinf :
    ∀ l : List FP, (∀ x ∈ l, x ≠ FP.nan ∧ x ≠ FP.ninf) → FP.pinf ∈ l →
      ∀ s : ℚ, l.foldl FP.add (FP.fin s) = FP.pinf := by
  intro l
  induction l with
  | nil => intro _ hp; cases hp
  | cons a l ih =>
      intro hl hp s
      rw [List.foldl_cons]
      cases a with
      | fin qa =>
          have hpl : FP.pinf ∈ l := by
            rcases List.mem_cons.mp hp with h | h
            · cases h
            · exact h
          exact ih (fun x hx => hl x (by simp [hx])) hpl (s + qa)
      | pinf =>
          show List.foldl FP.add FP.pinf l = FP.pinf
          exact FP.foldl_add_from_pinf l fun x hx => hl x (by simp [hx])
      | ninf => exact absurd rfl (hl _ (by simp)).2
      | nan => exact absurd rfl (hl _ (by simp)).1

theorem mapeTerm_nan (r : ℚ × ℚ) (h1 : r.1 = 0) (h2 : r.2 = 0) :
    mapeTerm r = FP.nan := by
  simp [mapeTerm, FP.div, h1, h2, FP.abs]

theorem mapeTerm_pinf (r : ℚ × ℚ) (h1 : r.1 = 0) (h2 : r.2 ≠ 0) :
    mapeTerm r = FP.pinf := by
  by_cases hlt : r.2 < 0 <;>
    simp [mapeTerm, FP.div, h1, h2, hlt, FP.abs]

theorem mapeTerm_fin (r : ℚ × ℚ) (h1 : r.1 ≠ 0) :
    mapeTerm r = FP.fin |(r.1 - r.2) / r.1| := by
  simp [mapeTerm, FP.div, h1, FP.abs]

theorem mapeRaw_of_zero_zero (rows : List (ℚ × ℚ))
    (h : ∃ r ∈ rows, r.1 = 0 ∧ r.2 = 0) : mapeRaw rows = FP.nan := by
  obtain ⟨r, hr, h1, h2⟩ := h
  have hn : FP.nan ∈ rows.map mapeTerm :=
    List.mem_map.mpr ⟨r, hr, mapeTerm_nan r h1 h2⟩
  unfold mapeRaw FP.mean FP.sum
  rw [FP.foldl_add_mem_nan _ hn]
  rfl

theorem mapeRaw_of_zero_true (rows : List (ℚ × ℚ))
    (h0 : ∃ r ∈ rows, r.1 = 0)
    (hno : ∀ r ∈ rows, ¬(r.1 = 0 ∧ r.2 = 0)) : mapeRaw rows = FP.pinf := by
  have hterm : ∀ x ∈ rows.map mapeTerm, x ≠ FP.nan ∧ x ≠ FP.ninf := by
    intro x hx
    obtain ⟨r, hr, hxe⟩ := List.mem_map.mp hx
    by_cases h1 : r.1 = 0
    · have h2 : r.2 ≠ 0 := fun h2 => hno r hr ⟨h1, h2⟩
      rw [← hxe, mapeTerm_pinf r h1 h2]
      exact ⟨by simp, by simp⟩
    · rw [← hxe, mapeTerm_fin r h1]
      exact ⟨by simp, by simp⟩
  obtain ⟨r, hr, h1⟩ := h0
  have h2 : r.2 ≠ 0 := fun h2 => hno r hr ⟨h1, h2⟩
  have hp : FP.pinf ∈ rows.map mapeTerm :=
    List.mem_map.mpr ⟨r, hr, mapeTerm_pinf r h1 h2⟩
  unfold mapeRaw FP.mean FP.sum
  rw [FP.foldl_add_mem_pinf _ hterm hp 0]
  have hlen : ¬(rows.length : ℚ) < 0 := not_lt.mpr (Nat.cast_nonneg _)
  simp [FP.div, hlen, FP.scalePos]

theorem mapeRaw_of_no_zero (rows : List (ℚ × ℚ)) (hne : rows ≠ [])
    (h : ∀ r ∈ rows, r.1 ≠ 0) : ∃ q, mapeRaw rows = FP.fin q := by
  have hterm : ∀ x ∈ rows.map mapeTerm, ∃ q, x = FP.fin q := by
    intro x hx
    obtain ⟨r, hr, hxe⟩ := List.mem_map.mp hx
    exact ⟨_, by rw [← hxe, mapeTerm_fin r (h r hr)]⟩
  obtain ⟨q, hq⟩ := FP.foldl_add_fin _ hterm 0
  unfold mapeRaw FP.mean FP.sum
  rw [hq]
  simp [FP.div, hne, FP.scalePos]

theorem safeMetric_fin (q : ℚ) : safeMetric (FP.fin q) = FP.fin q := by
  simp [safeMetric]

theorem round2_fin_isRounded (q : ℚ) :
    ((FP.fin q).round2).isRounded2 = true := by
  simp only [FP.round2, FP.isRounded2, beq_iff_eq]
  rw [div_mul_cancel₀ _ (by norm_num : (100 : ℚ) ≠ 0)]
  exact Rat.den_intCast _

/-- C1 (amended): every reported metric set exists for a non-empty aligned
frame (none of its computations raise) and no reported value is NaN; MAE,
RMSE and R2 are always finite and rounded to 2 decimal places, and MAPE is
rounded whenever it is finite.  But MAPE is only guaranteed finite when no
true value is 0: when some row has true = 0 and pred = 0 the computed mean
is NaN and the sanitized report shows 0, while when some row has true = 0
and every such row has pred ≠ 0 the reported MAPE is `+inf` — a non-finite
value that the NaN→0 sanitization does not catch. -/
theorem calculate_metrics_sanitized :
    ∀ rows : List (ℚ × ℚ), rows ≠ [] →
      ∃ m, calculate_metrics rows = some m ∧
        m.mae.isFinite = true ∧ m.rmse.isFinite = true ∧ m.r2.isFinite = true ∧
        m.mae.isRounded2 = true ∧ m.rmse.isRounded2 = true ∧
        m.r2.isRounded2 = true ∧
        m.mape ≠ FP.nan ∧
        (m.mape.isFinite = true → m.mape.isRounded2 = true) ∧
        ((∀ r ∈ rows, r.1 ≠ 0) → m.mape.isFinite = true) ∧
        ((∃ r ∈ rows, r.1 = 0 ∧ r.2 = 0) → m.mape = FP.fin 0) ∧
        ((∃ r ∈ rows, r.1 = 0) → (∀ r ∈ rows, ¬(r.1 = 0 ∧ r.2 = 0)) →
          m.mape = FP.pinf) := by
  intro rows hne
  have hE : rows.isEmpty = false := by
    cases rows with
    | nil => exact absurd rfl hne
    | cons a l => rfl
  have hrhe0 : (FP.fin (0 : ℚ)).round2 = FP.fin 0 := by
    norm_num [FP.round2, roundHalfEven]
  have F1 : (∃ r ∈ rows, r.1 = 0 ∧ r.2 = 0) →
      (safeMetric (mapeRaw rows)).round2 = FP.fin 0 := by
    intro h
    rw [mapeRaw_of_zero_zero rows h]
    simpa [safeMetric] using hrhe0
  have F2 : (∃ r ∈ rows, r.1 = 0) → (∀ r ∈ rows, ¬(r.1 = 0 ∧ r.2 = 0)) →
      (safeMetric (mapeRaw rows)).round2 = FP.pinf := by
    intro h0 hno
    rw [mapeRaw_of_zero_true rows h0 hno]
    rfl
  have F3 : (∀ r ∈ rows, r.1 ≠ 0) →
      ∃ q, (safeMetric (mapeRaw rows)).round2 =
        FP.fin ((roundHalfEven (q * 100) : ℚ) / 100) := by
    intro h
    obtain ⟨q, hq⟩ := mapeRaw_of_no_zero rows hne h
    exact ⟨q, by rw [hq, safeMetric_fin]; simp [FP.round2]⟩
  refine ⟨{ mae := (safeMetric (FP.fin (maeQ rows))).round2,
            rmse := (safeMetric (FP.fin (Rat.sqrt (mseQ rows)))).round2,
            r2 := (safeMetric (FP.fin (r2Q rows))).round2,
            mape := (safeMetric (mapeRaw rows)).round2 },
    by simp [calculate_metrics, hE],
    ?_, ?_, ?_, ?_, ?_, ?_, ?_, ?_, ?_, ?_, ?_⟩
  · show ((safeMetric (FP.fin (maeQ rows))).round2).isFinite = true
    rw [safeMetric_fin]; rfl
  · show ((safeMetric (FP.fin (Rat.sqrt (mseQ rows)))).round2).isFinite = true
    rw [safeMetric_fin]; rfl
  · show ((safeMetric (FP.fin (r2Q rows))).round2).isFinite = true
    rw [safeMetric_fin]; rfl
  · show ((safeMetric (FP.fin (maeQ rows))).round2).isRounded2 = true
    rw [safeMetric_fin]; exact round2_fin_isRounded _
  · show ((safeMetric (FP.fin (Rat.sqrt (mseQ rows)))).round2).isRounded2 = true
    rw [safeMetric_fin]; exact round2_fin_isRounded _
  · show ((safeMetric (FP.fin (r2Q rows))).round2).isRounded2 = true
    rw [safeMetric_fin]; exact round2_fin_isRounded _
  · show (safeMetric (mapeRaw rows)).round2 ≠ FP.nan
    by_cases hA : ∃ r ∈ rows, r.1 = 0 ∧ r.2 = 0
    · rw [F1 hA]; simp
    · by_cases hB : ∃ r ∈ rows, r.1 = 0
      · have hA2 : ∀ r ∈ rows, ¬(r.1 = 0 ∧ r.2 = 0) := by
          intro r hr hrc; exact hA ⟨r, hr, hrc⟩
        rw [F2 hB hA2]; simp
      · have hall : ∀ r ∈ rows, r.1 ≠ 0 := by
          intro r hr h0; exact hB ⟨r, hr, h0⟩
        obtain ⟨q, hq⟩ := F3 hall
        rw [hq]; simp
  · show (safeMetric (mapeRaw rows)).round2.isFinite = true →
      (safeMetric (mapeRaw rows)).round2.isRounded2 = true
    intro hf
    by_cases hA : ∃ r ∈ rows, r.1 = 0 ∧ r.2 = 0
    · rw [F1 hA]; norm_num [FP.isRounded2]
    · by_cases hB : ∃ r ∈ rows, r.1 = 0
      · have hA2 : ∀ r ∈ rows, ¬(r.1 = 0 ∧ r.2 = 0) := by
          intro r hr hrc; exact hA ⟨r, hr, hrc⟩
        rw [F2 hB hA2] at hf
        simp [FP.isFinite] at hf
      · have hall : ∀ r ∈ rows, r.1 ≠ 0 := by
          intro r hr h0; exact hB ⟨r, hr, h0⟩
        obtain ⟨q, hq⟩ := F3 hall
        rw [hq]
        exact round2_fin_isRounded q
  · show (∀ r ∈ rows, r.1 ≠ 0) →
      (safeMetric (mapeRaw rows)).round2.isFinite = true
    intro hall
    obtain ⟨q, hq⟩ := F3 hall
    rw [hq]; rfl
  · exact F1
  · exact F2

theorem calculate_metrics_sanitized_witness :
    (([((1 : ℚ), (2 : ℚ))] : List (ℚ × ℚ)) ≠ []) ∧
    (∃ m, calculate_metrics [((1 : ℚ), (2 : ℚ))] = some m ∧
      m.mae.isFinite = true ∧ m.rmse.isFinite = true ∧ m.r2.isFinite = true ∧
      m.mae.isRounded2 = true ∧ m.rmse.isRounded2 = true ∧
      m.r2.isRounded2 = true ∧
      m.mape ≠ FP.nan ∧
      (m.mape.isFinite = true → m.mape.isRounded2 = true) ∧
      ((∀ r ∈ [((1 : ℚ), (2 : ℚ))], r.1 ≠ 0) → m.mape.isFinite = true) ∧
      ((∃ r ∈ [((1 : ℚ), (2 : ℚ))], r.1 = 0 ∧ r.2 = 0) → m.mape = FP.fin 0) ∧
      ((∃ r ∈ [((1 : ℚ), (2 : ℚ))], r.1 = 0) →
        (∀ r ∈ [((1 : ℚ), (2 : ℚ))], ¬(r.1 = 0 ∧ r.2 = 0)) →
        m.mape = FP.pinf)) :=
  ⟨by decide, calculate_metrics_sanitized [((1 : ℚ), (2 : ℚ))] (by decide)⟩

/-- C1 counterexample: on the aligned frame [(true 0, pred 1), (true 1,
pred 1)] — which contains a true value equal to 0 — the reported MAPE is
`+inf`: not a finite number and not the sanitized 0 the claim requires
(the NaN→0 sanitization does not catch infinity). -/
theorem mape_reported_infinite :
    (calculate_metrics [(0, 1), (1, 1)]).map MetricSet.mape = some FP.pinf ∧
    FP.pinf.isFinite = false ∧ FP.pinf ≠ FP.fin 0 := by
  refine ⟨?_, rfl, by decide⟩
  have h := mapeRaw_of_zero_true [((0 : ℚ), (1 : ℚ)), (1, 1)]
    ⟨(0, 1), by decide, rfl⟩ (by decide)
  unfold calculate_metrics
  rw [if_neg (by decide :
    ¬([((0 : ℚ), (1 : ℚ)), (1, 1)] : List (ℚ × ℚ)).isEmpty = true)]
  simp only [Option.map_some']
  rw [h]
  rfl
